import Mathlib

/-!
Verification of the date-normalization and missing-period-summary core of the
repository, shallowly embedded in Lean 4.  Tables are lists of named columns;
cells are `Option String` (`none` models a pandas missing value).  Integer
arithmetic is exact: the source's `mean() >= 0.8` and `>= 0.6` float
comparisons are modelled as the exact rational comparisons `5*k ≥ 4*n` and
`5*k ≥ 3*n`, which agree with IEEE arithmetic at every size that occurs here.
-/

namespace Dacon

/-- A cell of a read table: `none` is a pandas `NaN`. -/
abbrev Cell := Option String

/-- A table column: name together with its cells, `astype(str)`-rendered. -/
abbrev Column := String × List Cell

/-- A table is an ordered list of named columns (names unique). -/
abbrev Table := List Column

/-- Digits of a string, i.e. the source's `str.replace(r"[^0-9]", "")`. -/
def stripNonDigits (s : String) : String :=
  ⟨s.data.filter Char.isDigit⟩

/-- Numeric value of a digit character. -/
def digitVal (c : Char) : Nat := c.toNat - '0'.toNat

/-- Value of a digit string, most significant first. -/
def digitsVal (l : List Char) : Nat :=
  l.foldl (fun a c => a * 10 + digitVal c) 0

/-- Parse a nonempty all-digit character list. -/
def parseNatChars? (l : List Char) : Option Nat :=
  if l ≠ [] ∧ l.all Char.isDigit then some (digitsVal l) else none

/-- Decimal digit character for a digit value (values ≥ 9 clamp to '9'). -/
def digitChar10 : Nat → Char
  | 0 => '0' | 1 => '1' | 2 => '2' | 3 => '3' | 4 => '4'
  | 5 => '5' | 6 => '6' | 7 => '7' | 8 => '8' | _ => '9'

/-- Decimal digits of a natural number, most significant first; the `fuel`
argument dominates the recursion depth and `natToChars` always supplies
enough of it. -/
def natToCharsAux : Nat → Nat → List Char
  | 0, _ => []
  | fuel + 1, n =>
    if n < 10 then [digitChar10 n]
    else natToCharsAux fuel (n / 10) ++ [digitChar10 (n % 10)]

/-- Decimal rendering of a natural number, as Python `str` renders an `int`. -/
def natToChars (n : Nat) : List Char := natToCharsAux (n + 1) n

/-- Left-pad a digit list with zeros to width `w`, as Python `f"{n:0wd}"`. -/
def padZeros (w : Nat) (l : List Char) : List Char :=
  List.replicate (w - l.length) '0' ++ l

/-- Unsigned part of numeric coercion: digits followed by nothing, or by a
point and an all-zero fraction. -/
def parseUnsigned? (body : List Char) : Option Nat :=
  match body.dropWhile Char.isDigit with
  | [] => parseNatChars? (body.takeWhile Char.isDigit)
  | '.' :: fp =>
    if fp.all fun c => c = '0' then parseNatChars? (body.takeWhile Char.isDigit)
    else none
  | _ => none

/-- The source's `pd.to_numeric(x, errors="coerce")` on one cell, restricted
to the integral values this pipeline stores: an optional sign, digits, and an
optional all-zero fractional part.  A value with a nonzero fractional part is
not representable in the nullable-integer columns the pipeline builds (the
source would raise on the later `astype("Int64")`), so it maps to `none`;
exponent notation and surrounding whitespace are outside the model. -/
def toNumeric? (s : String) : Option Int :=
  if s.data.head? = some '-' then (parseUnsigned? s.data.tail).map fun n => -(n : Int)
  else (parseUnsigned? s.data).map fun n => (n : Int)

/-- Cells of the column named `n` (`df[n]`); the empty list when absent. -/
def colCells (t : Table) (n : String) : List Cell :=
  ((t.find? (fun c => c.1 = n)).map Prod.snd).getD []

/-- The ordered column names of a table (`df.columns`). -/
def colNames (t : Table) : List String := t.map Prod.fst

/-- The fixed candidate encoding list, identical in both source modules. -/
def ENCODINGS : List String := ["utf-8-sig", "utf-8", "cp949", "euc-kr", "latin1"]

/-- A file as the encoding-detection code observes it: which candidate
encodings decode it, and to which table.  Decoding itself (byte-level
`cp949`/`utf-8` semantics) is outside the embedding; the detectors only
consume these per-candidate outcomes. -/
abbrev EncFile := String → Option Table

/-- The `PERIOD_PATTERN` prefix match shared by both modules: a filename of
shape `<6 digits>-<6 digits>_...` yields the two six-digit numbers. -/
def parsePeriodPrefix? (name : String) : Option (Nat × Nat) :=
  match name.data with
  | a :: b :: c :: d :: e :: f :: '-' :: g :: h :: i :: j :: k :: l :: '_' :: _ =>
    if ([a, b, c, d, e, f] ++ [g, h, i, j, k, l]).all Char.isDigit then
      some (digitsVal [a, b, c, d, e, f], digitsVal [g, h, i, j, k, l])
    else none
  | _ => none

namespace Summarize

/-- Start of the fixed reference interval (`BASE_START` in the source). -/
def BASE_START : Nat := 202001

/-- End of the fixed reference interval (`BASE_END` in the source). -/
def BASE_END : Nat := 202509

/-- Loop body of the source's `iterate_months` `while` loop.  The source loop
terminates exactly when the running month is a real month (1–12); the `fuel`
argument bounds the iteration count and every caller in this file supplies
enough fuel for the loop to run to completion. -/
def iterateGo : Nat → Nat → Nat → Nat → Nat → List Nat
  | 0, _, _, _, _ => []
  | fuel + 1, year, month, endYear, endMonth =>
    if year < endYear ∨ (year = endYear ∧ month ≤ endMonth) then
      (year * 100 + month) ::
        (if month + 1 = 13 then iterateGo fuel (year + 1) 1 endYear endMonth
         else iterateGo fuel year (month + 1) endYear endMonth)
    else []

/-- The source's `iterate_months(start, end)`: every encoded month of the
closed interval, advancing by calendar increment. -/
def iterate_months (start e : Nat) : List Nat :=
  iterateGo ((e / 100 + 2 - start / 100) * 12) (start / 100) (start % 100)
    (e / 100) (e % 100)

/-- The source's `BASE_MONTHS` set, modelled as a deduplicated list. -/
def BASE_MONTHS : List Nat := (iterate_months BASE_START BASE_END).dedup

/-- The source's `month_int_to_label`: zero-padded `YYYY-MM`. -/
def month_int_to_label (v : Nat) : String :=
  ⟨padZeros 4 (natToChars (v / 100)) ++ '-' :: padZeros 2 (natToChars (v % 100))⟩

/-- The `expected` successor computed inside `months_to_ranges`: the calendar
successor of an encoded month (12 rolls over to month 1 of the next year). -/
def expectedNext (prev : Nat) : Nat :=
  if prev % 100 = 12 then (prev / 100 + 1) * 100 + 1
  else (prev / 100) * 100 + (prev % 100 + 1)

/-- Segment-collection loop of `months_to_ranges`: split an ascending list
into maximal runs of calendar-consecutive months. -/
def segmentsGo (start prev : Nat) : List Nat → List (Nat × Nat)
  | [] => [(start, prev)]
  | current :: rest =>
    if current = expectedNext prev then segmentsGo start current rest
    else (start, prev) :: segmentsGo current current rest

/-- Runs of calendar-consecutive months of an ascending list. -/
def segmentsOf : List Nat → List (Nat × Nat)
  | [] => []
  | v :: rest => segmentsGo v v rest

/-- Label of one segment: a single month or `start~end`. -/
def segLabel (p : Nat × Nat) : String :=
  if p.1 = p.2 then month_int_to_label p.1
  else month_int_to_label p.1 ++ "~" ++ month_int_to_label p.2

/-- The source's `months_to_ranges`: sort and deduplicate, collapse into
calendar-contiguous segments, render at most `maxSegments` labels and append
an ellipsis when more segments exist. -/
def months_to_ranges (months : List Nat) (maxSegments : Nat := 6) : String :=
  let values := List.insertionSort (· ≤ ·) months.dedup
  if values = [] then ""
  else
    let segments := segmentsOf values
    let labels := (segments.take maxSegments).map segLabel
    let labels := if maxSegments < segments.length then labels ++ ["…"] else labels
    String.intercalate ", " labels

/-- Month group `(0[1-9]|1[0-2])` of the first date pattern: two characters,
or no match. -/
def month2? (a b : Char) : Option Nat :=
  if a = '0' ∧ '1' ≤ b ∧ b ≤ '9' then some (digitVal b)
  else if a = '1' ∧ '0' ≤ b ∧ b ≤ '2' then some (10 + digitVal b)
  else none

/-- Separator class `[-./]` of the first date pattern. -/
def isSep (c : Char) : Bool := c = '-' ∨ c = '.' ∨ c = '/'

/-- Anchored match of the first pattern `(20\d{2})[-./]?(0[1-9]|1[0-2])`:
year group, month group and matched length.  The optional separator is
greedy; when it is consumed but the month group then fails, the regex
backtracks to the separator position, where the month group cannot start
(a separator is not a digit), so the whole match fails. -/
def tryMatch1 : List Char → Option (Nat × Nat × Nat)
  | '2' :: '0' :: c1 :: c2 :: rest =>
    if c1.isDigit ∧ c2.isDigit then
      let y := 2000 + 10 * digitVal c1 + digitVal c2
      match rest with
      | a :: b :: c :: _ =>
        if isSep a then (month2? b c).map fun m => (y, m, 7)
        else (month2? a b).map fun m => (y, m, 6)
      | [a, b] =>
        if isSep a then none else (month2? a b).map fun m => (y, m, 6)
      | _ => none
    else none
  | _ => none

/-- Month group `(1[0-2]|0?[1-9])` of the second date pattern, with the
regex's left-to-right alternation and greedy optional zero: month value and
consumed length. -/
def month2b? : List Char → Option (Nat × Nat)
  | a :: b :: _ =>
    if a = '1' ∧ '0' ≤ b ∧ b ≤ '2' then some (10 + digitVal b, 2)
    else if a = '0' ∧ '1' ≤ b ∧ b ≤ '9' then some (digitVal b, 2)
    else if '1' ≤ a ∧ a ≤ '9' then some (digitVal a, 1)
    else none
  | [a] => if '1' ≤ a ∧ a ≤ '9' then some (digitVal a, 1) else none
  | [] => none

/-- Anchored match of the second pattern `(20\d{2})\D(1[0-2]|0?[1-9])`. -/
def tryMatch2 : List Char → Option (Nat × Nat × Nat)
  | '2' :: '0' :: c1 :: c2 :: d :: rest =>
    if c1.isDigit ∧ c2.isDigit ∧ ¬ d.isDigit then
      (month2b? rest).map fun p => (2000 + 10 * digitVal c1 + digitVal c2, p.1, 5 + p.2)
    else none
  | _ => none

/-- The scanning loop of `re.finditer`: try an anchored match at each
position, and resume after the end of every match (matches do not overlap).
Each step consumes at least one character, so `fuel` = length suffices. -/
def scanGo (m : List Char → Option (Nat × Nat × Nat)) : Nat → List Char → List (Nat × Nat)
  | 0, _ => []
  | fuel + 1, l =>
    match l with
    | [] => []
    | _ :: tail =>
      match m l with
      | some (y, mo, len) => (y, mo) :: scanGo m fuel (l.drop len)
      | none => scanGo m fuel tail

/-- All matches of an anchored matcher over a string, `re.finditer` style. -/
def findIter (m : List Char → Option (Nat × Nat × Nat)) (s : String) : List (Nat × Nat) :=
  scanGo m s.data.length s.data

/-- The source's `extract_year_months`, as the list of every value the code
adds to its `months` set: dedicated `년도`/`월` columns when both exist,
plus every `DATE_PATTERNS` match found in any cell of any column.  Each
candidate passes the explicit `2000 ≤ year ≤ 2030` and `1 ≤ month ≤ 12`
filters before being added. -/
def extract_year_months (t : Table) : List Nat :=
  let part1 :=
    if "년도" ∈ colNames t ∧ "월" ∈ colNames t then
      let ys := (colCells t "년도").map fun c => c.bind toNumeric?
      let ms := (colCells t "월").map fun c => c.bind toNumeric?
      (ys.zip ms).filterMap fun p =>
        p.1.bind fun y => p.2.bind fun m =>
          if 2000 ≤ y ∧ y ≤ 2030 ∧ 1 ≤ m ∧ m ≤ 12 then
            some ((y * 100 + m).toNat)
          else none
    else []
  let part2 :=
    t.flatMap fun col =>
      (col.2.filterMap id).flatMap fun s =>
        (findIter tryMatch1 s ++ findIter tryMatch2 s).filterMap fun p =>
          if 2000 ≤ p.1 ∧ p.1 ≤ 2030 ∧ 1 ≤ p.2 ∧ p.2 ≤ 12 then
            some (p.1 * 100 + p.2)
          else none
  part1 ++ part2

/-- The summary module's `detect_encoding`: the first candidate that reads
the header without error; `none` models the raised `ValueError`. -/
def detect_encoding (f : EncFile) : Option String :=
  ENCODINGS.find? fun e => (f e).isSome

/-- The source's `FileSummary` record. -/
structure FileSummary where
  file_name : String
  folder : String
  data_range : String
  present_count : Nat
  missing_count : Nat
  missing_ranges : String
  notes : String
deriving DecidableEq

/-- Minimum of a nonempty list (Python `min` over the observation set). -/
def minOf : List Nat → Nat
  | [] => 0
  | x :: xs => xs.foldl Nat.min x

/-- Maximum of a nonempty list (Python `max` over the observation set). -/
def maxOf : List Nat → Nat
  | [] => 0
  | x :: xs => xs.foldl Nat.max x

/-- The record `summarize_file` returns from its `except` branch when the
file cannot be read: empty range, zero present months, every reference month
missing, and a `read_error:` note. -/
def errorSummary (name folder msg : String) : FileSummary :=
  { file_name := name
    folder := folder
    data_range := ""
    present_count := 0
    missing_count := BASE_MONTHS.length
    missing_ranges := ""
    notes := "read_error:" ++ msg }

/-- Success branch of `summarize_file`, operating on the decoded table. -/
def summarizeTable (name folder : String) (t : Table) : FileSummary :=
  let ym := extract_year_months t
  let present := List.insertionSort (· ≤ ·)
    ((ym.filter fun v => BASE_START ≤ v ∧ v ≤ BASE_END).dedup)
  let outside := List.insertionSort (· ≤ ·)
    ((ym.filter fun v => v < BASE_START ∨ BASE_END < v).dedup)
  let missing := List.insertionSort (· ≤ ·)
    (BASE_MONTHS.filter fun v => v ∉ present)
  let dataRange :=
    if ym ≠ [] then
      month_int_to_label (minOf ym) ++ "~" ++ month_int_to_label (maxOf ym)
    else
      match parsePeriodPrefix? name with
      | some (s, e) =>
        if s ≠ 0 ∧ e ≠ 0 then
          month_int_to_label s ++ "~" ++ month_int_to_label e
        else ""
      | none => ""
  let notes :=
    (if ym = [] then ["기간 정보 확인 불가"] else []) ++
      (if outside ≠ [] then
        ["기준 외 " ++ (⟨natToChars outside.length⟩ : String) ++ "개월 (예: " ++
          month_int_to_label (outside.headD 0) ++ ")"]
      else [])
  { file_name := name
    folder := folder
    data_range := dataRange
    present_count := present.length
    missing_count := missing.length
    missing_ranges := months_to_ranges missing
    notes := String.intercalate ", " notes }

/-- The source's `summarize_file`: read under the first working encoding and
summarize, or record a file-level read error.  (The `some enc` / `none` inner
mismatch cannot occur: `detect_encoding` only returns candidates that read
successfully.) -/
def summarize_file (name folder : String) (f : EncFile) : FileSummary :=
  match detect_encoding f with
  | none => errorSummary name folder "Failed to detect encoding"
  | some enc =>
    match f enc with
    | none => errorSummary name folder "Failed to detect encoding"
    | some t => summarizeTable name folder t

/-- The per-run summary sequence built by the summary module's `main`: one
record per input file, in order, no exceptions escape. -/
def summarizeBatch (files : List (String × String × EncFile)) : List FileSummary :=
  files.map fun x => summarize_file x.1 x.2.1 x.2.2

end Summarize

/-- Decimal rendering of an integer, as Python `str` renders an `int`. -/
def intToString (i : Int) : String :=
  if i < 0 then "-" ++ (⟨natToChars i.natAbs⟩ : String) else ⟨natToChars i.toNat⟩

/-- Suffix test on strings by their character lists (`str.endswith`). -/
def strEndsWith (s suffix : String) : Bool := suffix.data.isSuffixOf s.data

/-- Infix test on character lists (structurally recursive, so concrete
instances reduce in the kernel). -/
def listInfix (needle : List Char) : List Char → Bool
  | [] => needle.isEmpty
  | c :: rest => needle.isPrefixOf (c :: rest) || listInfix needle rest

/-- Substring test on strings by their character lists (Python `in`). -/
def strContains (s sub : String) : Bool := listInfix sub.data s.data

namespace Normalize

/-- The source's `YEAR_KEYWORDS`. -/
def YEAR_KEYWORDS : List String := ["year", "년도", "연도"]

/-- The source's `MONTH_KEYWORDS`. -/
def MONTH_KEYWORDS : List String := ["month", "월"]

/-- The source's `DATE_COLUMN_HINTS`. -/
def DATE_COLUMN_HINTS : List String := ["년", "월", "일", "date", "날짜", "기준", "period", "기간"]

/-- The source's `DateColumns` record. -/
structure DateColumns where
  year_col : Option String := none
  month_col : Option String := none
  combined_col : Option String := none
deriving DecidableEq

/-- The source's `normalize_column_name`: drop whitespace, lowercase.  ASCII
lowering matches Python on every name this corpus uses. -/
def normalize_column_name (s : String) : String :=
  ⟨(s.data.filter fun c => ¬ c.isWhitespace).map Char.toLower⟩

/-- Non-null cells of a series with non-digits stripped: the shared
`series.dropna().astype(str).str.replace(r"[^0-9]", "", regex=True)`. -/
def seriesDigits (cells : List Cell) : List String :=
  (cells.filterMap id).map stripNonDigits

/-- Range validity of one digit-stripped cell for a role given by bounds. -/
def inIntRange (lo hi : Int) (d : String) : Bool :=
  match toNumeric? d with
  | some n => lo ≤ n ∧ n ≤ hi
  | none => false

/-- The source's `is_year_series`: at least 80% of the non-null cells strip
to an integer in 1900–2100 (`mean() >= 0.8` as the exact `5·k ≥ 4·n`). -/
def is_year_series (cells : List Cell) : Bool :=
  let digits := seriesDigits cells
  if digits = [] then false
  else 5 * digits.countP (inIntRange 1900 2100) ≥ 4 * digits.length

/-- The source's `is_month_series`: at least 80% of the non-null cells strip
to an integer in 1–12. -/
def is_month_series (cells : List Cell) : Bool :=
  let digits := seriesDigits cells
  if digits = [] then false
  else 5 * digits.countP (inIntRange 1 12) ≥ 4 * digits.length

/-- Name test of the strict year stage: keyword member or `년도` suffix. -/
def yearNameMatch (norm : String) : Bool :=
  YEAR_KEYWORDS.contains norm ∨ strEndsWith norm "년도"

/-- Name test of the strict month stage: keyword member or exactly `기준월`. -/
def monthNameMatch (norm : String) : Bool :=
  MONTH_KEYWORDS.contains norm ∨ norm = "기준월"

/-- First loop of `detect_date_columns`: walk the columns in order, assigning
the year slot and the month slot on the first name-and-value match; a column
that fills the year slot is not considered for the month slot (`continue`). -/
def nameStage : List Column → DateColumns → DateColumns
  | [], info => info
  | (name, cells) :: rest, info =>
    let norm := normalize_column_name name
    if info.year_col = none ∧ yearNameMatch norm ∧ is_year_series cells then
      nameStage rest { info with year_col := some name }
    else if info.month_col = none ∧ monthNameMatch norm ∧ is_month_series cells then
      nameStage rest { info with month_col := some name }
    else nameStage rest info

/-- Date-hint test of the combined stage: the normalized name contains one of
the broader date substrings. -/
def hasDateHint (norm : String) : Bool :=
  DATE_COLUMN_HINTS.any fun h => strContains norm h

/-- Acceptance test of one column in the combined-date stage: a date-hinted
name, some non-null cells, at least 60% of them of digit length 6–8, and at
least 60% of them (all of them, not only the qualifying ones) with a
parsable first-six-digit prefix whose positions 5–6 form a month in 1–12. -/
def combinedPred (col : Column) : Bool :=
  let norm := normalize_column_name col.1
  let digits := seriesDigits col.2
  hasDateHint norm ∧ digits ≠ [] ∧
    5 * digits.countP (fun d => 6 ≤ d.length ∧ d.length ≤ 8) ≥ 3 * digits.length ∧
    5 * digits.countP (fun d =>
      (toNumeric? ⟨d.data.take 6⟩).isSome ∧ inIntRange 1 12 ⟨(d.data.drop 4).take 2⟩) ≥
      3 * digits.length

/-- Second loop of `detect_date_columns`: first column passing
`combinedPred`, scanning every column in table order (the source does not
exclude columns already assigned by the name stage). -/
def combinedScan : List Column → Option String
  | [] => none
  | col :: rest => if combinedPred col then some col.1 else combinedScan rest

/-- The source's `detect_date_columns`. -/
def detect_date_columns (t : Table) : DateColumns :=
  let info := nameStage t {}
  if info.year_col = none ∨ info.month_col = none then
    { info with combined_col := combinedScan t }
  else info

/-- The combined-date acceptance test as the spec words it, for comparison
with the source's `combinedPred`: at least 60% of the cells qualify by digit
length 6–8, and, *among the qualifying cells*, at least 60% have a parsable
six-digit prefix with month sub-slice 1–12. -/
def specCombinedPred (col : Column) : Bool :=
  let digits := seriesDigits col.2
  let qualifying := digits.filter fun d => 6 ≤ d.length ∧ d.length ≤ 8
  hasDateHint (normalize_column_name col.1) ∧ digits ≠ [] ∧
    5 * qualifying.length ≥ 3 * digits.length ∧
    5 * (qualifying.countP fun d =>
      (toNumeric? ⟨d.data.take 6⟩).isSome ∧ inIntRange 1 12 ⟨(d.data.drop 4).take 2⟩) ≥
      3 * qualifying.length

/-- The combined-date selection as the spec words it: the first *remaining*
(not already assigned) date-hinted column passing `specCombinedPred`. -/
def specCombinedSelect (t : Table) (assigned : List String) : Option String :=
  ((t.filter fun c => c.1 ∉ assigned).find? specCombinedPred).map (·.1)

/-- The source's `extract_year_month_from_series`: strip non-digits from the
stringified cell (a missing cell stringifies to `"nan"`, which strips to the
empty string, hence the `getD ""`), take the first four digits as the year
and the next two as the month, and blank both on a range failure. -/
def extract_year_month_from_series (cells : List Cell) :
    List (Option Int) × List (Option Int) :=
  let pairs := cells.map fun c =>
    let v := stripNonDigits (c.getD "")
    let year := toNumeric? ⟨v.data.take 4⟩
    let month := toNumeric? ⟨(v.data.drop 4).take 2⟩
    match year, month with
    | some y, some m =>
      if 1900 ≤ y ∧ y ≤ 2100 ∧ 1 ≤ m ∧ m ≤ 12 then (year, month)
      else (none, none)
    | _, _ => ((none : Option Int), (none : Option Int))
  (pairs.map Prod.fst, pairs.map Prod.snd)

/-- The source's `ensure_int_series`: numeric coercion to nullable integers. -/
def ensure_int_series (cells : List Cell) : List (Option Int) :=
  cells.map fun c => c.bind toNumeric?

/-- Row count of a table. -/
def nrows (t : Table) : Nat := (t.head?.map fun c => c.2.length).getD 0

/-- The source's `determine_year_month`: year/month series from the
classified columns, from the combined column for whichever of the two is
still unresolved, and otherwise a constant filename-fallback (or all-missing)
series; together with the list of contributing source columns. -/
def determine_year_month (t : Table) (info : DateColumns) (fy fm : Option Int) :
    List (Option Int) × List (Option Int) × List String :=
  let step1y := info.year_col.map fun yc => ensure_int_series (colCells t yc)
  let step1m := info.month_col.map fun mc => ensure_int_series (colCells t mc)
  let related1 := info.year_col.toList ++ info.month_col.toList
  let step2 :=
    match info.combined_col with
    | some cc =>
      if step1y.isNone ∨ step1m.isNone then
        let p := extract_year_month_from_series (colCells t cc)
        (some (step1y.getD p.1), some (step1m.getD p.2), related1 ++ [cc])
      else (step1y, step1m, related1)
    | none => (step1y, step1m, related1)
  let ys := step2.1.getD (List.replicate (nrows t) fy)
  let ms := step2.2.1.getD (List.replicate (nrows t) fm)
  (ys, ms, step2.2.2)

/-- Replace the cells of column `n`, or append the column when absent
(`df[n] = series`). -/
def setCol (t : Table) (n : String) (cells : List Cell) : Table :=
  if t.any fun c => c.1 = n then
    t.map fun c => if c.1 = n then (n, cells) else c
  else t ++ [(n, cells)]

/-- The source's `parse_period_from_name` of the normalization module: the
year and month of the *start* of a `<6 digits>-<6 digits>_` filename period. -/
def parse_period_from_name (name : String) : Option Int × Option Int :=
  match parsePeriodPrefix? name with
  | none => (none, none)
  | some (s, _) => (some ((s / 100 : Nat) : Int), some ((s % 100 : Nat) : Int))

/-- The table-and-encoding result of the source's `process_file` after the
table has been read: write the year/month series, then reorder so that
`year`, `month` lead, the contributing source columns follow, and all other
columns keep their original relative order; serialize as `utf-8-sig`. -/
def process_file_table (t : Table) (fy fm : Option Int) : Table × String :=
  let info := detect_date_columns t
  let r := determine_year_month t info fy fm
  let base := setCol (setCol t "year" (r.1.map fun v => v.map intToString))
    "month" (r.2.1.map fun v => v.map intToString)
  let relOrder := r.2.2.foldl (fun acc c =>
    if c = "year" ∨ c = "month" then acc
    else if c ∈ acc ∨ c ∉ colNames base then acc
    else acc ++ [c]) []
  let order := ["year", "month"] ++ relOrder
  let finalOrder := order ++ (colNames base).filter fun n => n ∉ order
  (finalOrder.map fun n => (n, colCells base n), "utf-8-sig")

/-- Count of Hangul-syllable code points of a decoded header
(`"가" <= ch <= "힣"`). -/
def hangulCount (s : String) : Nat :=
  (s.data.filter fun c => 0xAC00 ≤ c.toNat ∧ c.toNat ≤ 0xD7A3).length

/-- Count of ASCII code points of a decoded header (`str.isascii`, printable
or not). -/
def asciiCount (s : String) : Nat :=
  (s.data.filter fun c => c.toNat < 128).length

/-- The joined header a candidate decodes to (`"".join(df.columns)`). -/
def headerOf (t : Table) : String := String.join (colNames t)

/-- The best-score metric of the normalization module's `detect_encoding`. -/
def headerScore (s : String) : Nat := 2 * hangulCount s + asciiCount s

/-- Count of *printable* ASCII characters (0x20–0x7E), as the spec words the
score's second term, for comparison with the source's `isascii` count. -/
def printableAsciiCount (s : String) : Nat :=
  (s.data.filter fun c => 0x20 ≤ c.toNat ∧ c.toNat ≤ 0x7E).length

/-- One candidate step of the normalization module's `detect_encoding`: skip
a candidate that fails to read, otherwise keep the higher-scoring of the
running best and the candidate (strict `>` replacement, so the earliest
candidate wins ties). -/
def detectStep (f : EncFile) (best : Option (String × Nat)) (e : String) :
    Option (String × Nat) :=
  match f e with
  | none => best
  | some t =>
    let sc := headerScore (headerOf t)
    match best with
    | none => some (e, sc)
    | some b => if sc > b.2 then some (e, sc) else best

/-- The normalization module's `detect_encoding`: score every candidate that
reads the header and keep the first highest-scoring one. -/
def detect_encoding (f : EncFile) : Option String :=
  (ENCODINGS.foldl (detectStep f) none).map Prod.fst

/-- The source's `process_file` up to serialization: detect an encoding, read
the table, and normalize it; a raised `ValueError` is the `error` branch. -/
def process_file (name : String) (f : EncFile) : Except String (Table × String) :=
  match detect_encoding f with
  | none => Except.error "Failed to detect encoding"
  | some enc =>
    match f enc with
    | none => Except.error "read failed"
    | some t =>
      let p := parse_period_from_name name
      Except.ok (process_file_table t p.1 p.2)

/-- The batch loop of the normalization module's `main`: process each file in
order, counting successes; an exception propagates and aborts the fold. -/
def normalize_main (files : List (String × EncFile)) : Except String Nat :=
  files.foldlM (fun n file => (process_file file.1 file.2).map fun _ => n + 1) 0

end Normalize

/-- A file's tabular content as raw text fields: one list of cell texts per
named column; the empty string is an empty field. -/
abbrev RawFile := List (String × List String)

/-- Decimal-integer field shape (optional sign, digits). -/
def isIntString (s : String) : Bool :=
  if s.data.head? = some '-' then
    s.data.tail ≠ [] ∧ s.data.tail.all Char.isDigit
  else s.data ≠ [] ∧ s.data.all Char.isDigit

/-- Decimal-number field shape (optional sign, digits, optional point);
exponent and special forms are outside the model. -/
def isNumString (s : String) : Bool :=
  let body := if s.data.head? = some '-' then s.data.tail else s.data
  match body.splitOn '.' with
  | [ip] => ip ≠ [] ∧ ip.all Char.isDigit
  | [ip, fp] => (ip ≠ [] ∨ fp ≠ []) ∧ ip.all Char.isDigit ∧ fp.all Char.isDigit
  | _ => false

/-- How an integer-typed column renders a field back to text
(`str` of a Python `int`): canonical decimal, leading zeros dropped. -/
def renderIntCell (s : String) : String := (toNumeric? s).elim s intToString

/-- Trailing zeros of a fractional digit list removed. -/
def stripTrailingZeros (l : List Char) : List Char :=
  (l.reverse.dropWhile fun c => c = '0').reverse

/-- How a float-typed column renders a field back to text (`str` of a Python
`float` at the small magnitudes this corpus holds): canonical integer part, a
point, and the fraction with trailing zeros dropped (`.0` when none). -/
def renderFloatCell (s : String) : String :=
  let neg := s.data.head? = some '-'
  let body := if neg then s.data.tail else s.data
  let signStr : String := if neg then "-" else ""
  match body.splitOn '.' with
  | [ip] => signStr ++ (⟨natToChars (digitsVal ip)⟩ : String) ++ ".0"
  | [ip, fp] =>
    let fr := stripTrailingZeros fp
    signStr ++ (⟨natToChars (digitsVal ip)⟩ : String) ++ "." ++
      (if fr = [] then "0" else (⟨fr⟩ : String))
  | _ => s

/-- The dtype inference `pd.read_csv` applies to one column, restricted to
the shapes this corpus holds: an empty field is always missing; a column of
pure integer fields with no empties is integer-typed (fields re-render
canonically); integer/decimal fields with empties or points make a float
column (fields re-render as Python floats, so `"7"` becomes `"7.0"`); any
other column keeps its fields as verbatim strings. -/
def renderColumn (raw : List String) : List Cell :=
  let ne := raw.filter fun s => s ≠ ""
  if ne = [] then raw.map fun _ => none
  else if ne.all isIntString ∧ ¬ raw.contains "" then
    raw.map fun s => some (renderIntCell s)
  else if ne.all isNumString then
    raw.map fun s => if s = "" then none else some (renderFloatCell s)
  else raw.map fun s => if s = "" then none else some s

/-- Reading a delimited file into a table (`pd.read_csv` on the shapes this
corpus holds). -/
def csvRead (f : RawFile) : Table := f.map fun col => (col.1, renderColumn col.2)

/-- Writing a table back to delimited text (`df.to_csv`): a missing cell is
an empty field, every other cell its text. -/
def csvWrite (t : Table) : RawFile :=
  t.map fun col => (col.1, col.2.map fun c => c.getD "")

/-- One full normalization pass over a file: read, normalize, rewrite. -/
def normalizePass (f : RawFile) (fy fm : Option Int) : RawFile :=
  csvWrite (Normalize.process_file_table (csvRead f) fy fm).1

/-- Cells of a raw file's column named `n`. -/
def rawCol (f : RawFile) (n : String) : List String :=
  ((f.find? fun c => c.1 = n).map Prod.snd).getD []

theorem digitChar10_isDigit (n : Nat) : (digitChar10 n).isDigit = true := by
  unfold digitChar10
  split <;> decide

theorem digitVal_digitChar10 (n : Nat) (h : n < 10) : digitVal (digitChar10 n) = n := by
  interval_cases n <;> decide

theorem digitsVal_append_singleton (l : List Char) (c : Char) :
    digitsVal (l ++ [c]) = digitsVal l * 10 + digitVal c := by
  unfold digitsVal
  rw [List.foldl_append]
  rfl

theorem natToCharsAux_spec (fuel : Nat) : ∀ n, n < fuel →
    natToCharsAux fuel n ≠ [] ∧ (natToCharsAux fuel n).all Char.isDigit = true ∧
      digitsVal (natToCharsAux fuel n) = n := by
  induction fuel with
  | zero => intro n h; omega
  | succ fuel ih =>
    intro n h
    rw [natToCharsAux]
    by_cases hn : n < 10
    · rw [if_pos hn]
      refine ⟨by simp, ?_, ?_⟩
      · simp [digitChar10_isDigit]
      · have hd := digitVal_digitChar10 n hn
        unfold digitsVal
        simpa using hd
    · rw [if_neg hn]
      have hdiv : n / 10 < fuel := by omega
      obtain ⟨h1, h2, h3⟩ := ih (n / 10) hdiv
      refine ⟨by simp, ?_, ?_⟩
      · rw [List.all_append]
        simp only [h2, Bool.true_and, List.all_cons, List.all_nil, Bool.and_true]
        exact digitChar10_isDigit _
      · rw [digitsVal_append_singleton, h3, digitVal_digitChar10 _ (by omega)]
        omega

theorem natToChars_spec (n : Nat) :
    natToChars n ≠ [] ∧ (natToChars n).all Char.isDigit = true ∧
      digitsVal (natToChars n) = n :=
  natToCharsAux_spec (n + 1) n (by omega)

theorem parseNatChars?_natToChars (n : Nat) :
    parseNatChars? (natToChars n) = some n := by
  obtain ⟨h1, h2, h3⟩ := natToChars_spec n
  unfold parseNatChars?
  rw [if_pos ⟨h1, h2⟩, h3]

theorem isDigit_ne_dash {c : Char} (h : c.isDigit = true) : c ≠ '-' := by
  intro hc
  subst hc
  exact absurd h (by decide)

theorem parseUnsigned?_digit_chars (l : List Char) (h1 : l ≠ [])
    (h2 : l.all Char.isDigit = true) :
    parseUnsigned? l = some (digitsVal l) := by
  have hall : ∀ x ∈ l, x.isDigit = true := List.all_eq_true.mp h2
  have htake : l.takeWhile Char.isDigit = l :=
    List.takeWhile_eq_self_iff.mpr hall
  have hdrop : l.dropWhile Char.isDigit = [] :=
    List.dropWhile_eq_nil_iff.mpr hall
  unfold parseUnsigned?
  rw [hdrop, htake]
  unfold parseNatChars?
  rw [if_pos ⟨h1, h2⟩]

theorem toNumeric?_digit_chars (l : List Char) (h1 : l ≠ [])
    (h2 : l.all Char.isDigit = true) :
    toNumeric? ⟨l⟩ = some (digitsVal l) := by
  cases l with
  | nil => exact absurd rfl h1
  | cons c rest =>
    have hc : c.isDigit = true := by
      have := List.all_eq_true.mp h2
      exact this c (by simp)
    have hneg : ¬ ((String.mk (c :: rest)).data.head? = some '-') := by
      show ¬ ((c :: rest).head? = some '-')
      simp only [List.head?_cons, Option.some.injEq]
      intro hcc
      exact isDigit_ne_dash hc hcc
    unfold toNumeric?
    rw [if_neg hneg]
    show (parseUnsigned? (c :: rest)).map (fun n => (n : Int)) = _
    rw [parseUnsigned?_digit_chars (c :: rest) h1 h2]
    rfl

theorem toNumeric?_natToChars (n : Nat) :
    toNumeric? ⟨natToChars n⟩ = some (n : Int) := by
  obtain ⟨h1, h2, h3⟩ := natToChars_spec n
  rw [toNumeric?_digit_chars (natToChars n) h1 h2, h3]
  simp

theorem stripNonDigits_digit_chars (l : List Char) (h : l.all Char.isDigit = true) :
    stripNonDigits ⟨l⟩ = ⟨l⟩ := by
  unfold stripNonDigits
  congr 1
  exact List.filter_eq_self.mpr (List.all_eq_true.mp h)

namespace Summarize

@[simp]
theorem iterateGo_zero (y m ey em : Nat) : iterateGo 0 y m ey em = [] := rfl

theorem iterateGo_head (fuel y m ey em : Nat) :
    ∀ w ∈ (iterateGo fuel y m ey em).head?, w = y * 100 + m := by
  cases fuel with
  | zero => simp
  | succ fuel =>
    intro w hw
    rw [iterateGo] at hw
    by_cases h : y < ey ∨ (y = ey ∧ m ≤ em)
    · simp [h] at hw; omega
    · simp [h] at hw

/-- The month sequence of `iterate_months` advances by calendar increment as
long as the starting month is a real month (1–12). -/
theorem iterateGo_chain' (fuel : Nat) : ∀ y m ey em : Nat, 1 ≤ m → m ≤ 12 →
    (iterateGo fuel y m ey em).Chain' (fun a b => b = expectedNext a) := by
  induction fuel with
  | zero => intro y m ey em _ _; simp
  | succ fuel ih =>
    intro y m ey em hm1 hm2
    rw [iterateGo]
    by_cases h : y < ey ∨ (y = ey ∧ m ≤ em)
    · simp only [if_pos h]
      by_cases hroll : m + 1 = 13
      · rw [if_pos hroll]
        refine List.chain'_cons'.mpr ⟨?_, ih (y + 1) 1 ey em (by omega) (by omega)⟩
        intro w hw
        have := iterateGo_head fuel (y + 1) 1 ey em w hw
        subst this
        unfold expectedNext
        have hmod : (y * 100 + m) % 100 = 12 := by omega
        rw [if_pos hmod]
        omega
      · rw [if_neg hroll]
        refine List.chain'_cons'.mpr ⟨?_, ih y (m + 1) ey em (by omega) (by omega)⟩
        intro w hw
        have := iterateGo_head fuel y (m + 1) ey em w hw
        subst this
        unfold expectedNext
        have hmod : ¬ (y * 100 + m) % 100 = 12 := by omega
        rw [if_neg hmod]
        omega
    · simp [h]

end Summarize

/-- C3: the reference interval's month sequence is generated by calendar
increment (month 12 rolls over to month 1 of the next year); concretely, for
the reference interval `[202011, 202102]` and observation set
`{202011, 202102}` the missing months are `{202012, 202101}` and they render
as the single range `"2020-12~2021-01"`. -/
theorem claim_C3_calendar_increment :
    (∀ s e : Nat, 1 ≤ s % 100 → s % 100 ≤ 12 →
      (Summarize.iterate_months s e).Chain' (fun a b => b = Summarize.expectedNext a)) ∧
    Summarize.iterate_months 202011 202102 = [202011, 202012, 202101, 202102] ∧
    List.insertionSort (· ≤ ·)
        ((Summarize.iterate_months 202011 202102).dedup.filter
          (fun v => v ∉ ([202011, 202102] : List Nat))) = [202012, 202101] ∧
    Summarize.months_to_ranges [202012, 202101] = "2020-12~2021-01" := by
  refine ⟨?_, by decide, by decide, by decide⟩
  intro s e h1 h2
  exact Summarize.iterateGo_chain' _ (s / 100) (s % 100) (e / 100) (e % 100) h1 h2

/-- Witness for C3: the calendar-increment chain property instantiated at the
concrete boundary-crossing interval `[202011, 202102]`. -/
theorem claim_C3_witness :
    (Summarize.iterate_months 202011 202102).Chain'
      (fun a b => b = Summarize.expectedNext a) :=
  claim_C3_calendar_increment.1 202011 202102 (by decide) (by decide)

/-- C8: whenever the missing months split into more than six contiguous runs,
the rendered text is exactly six segment labels followed by the ellipsis
marker. -/
theorem claim_C8_segment_cap (ms : List Nat)
    (h : 6 < (Summarize.segmentsOf (List.insertionSort (· ≤ ·) ms.dedup)).length) :
    ∃ ls : List String, ls.length = 6 ∧
      Summarize.months_to_ranges ms = String.intercalate ", " (ls ++ ["…"]) := by
  unfold Summarize.months_to_ranges
  have hne : ¬ List.insertionSort (· ≤ ·) ms.dedup = [] := by
    intro hcontra
    rw [hcontra] at h
    simp [Summarize.segmentsOf] at h
  refine ⟨((Summarize.segmentsOf (List.insertionSort (· ≤ ·) ms.dedup)).take 6).map
    Summarize.segLabel, ?_, ?_⟩
  · simp [List.length_take]
    omega
  · simp only [if_neg hne, if_pos h]

/-- Witness for C8: an observation gap pattern with eight separate runs
renders as six labels plus the ellipsis marker. -/
theorem claim_C8_witness :
    ∃ ls : List String, ls.length = 6 ∧
      Summarize.months_to_ranges
          [202001, 202003, 202005, 202007, 202009, 202011, 202101, 202103] =
        String.intercalate ", " (ls ++ ["…"]) :=
  claim_C8_segment_cap
    [202001, 202003, 202005, 202007, 202009, 202011, 202101, 202103] (by decide)

/-- C7: a file with no usable date-column source and a period-prefixed name
gets the constant year/month of the period's *start* on every row: the name
parser returns the start's year and month, and with no classified columns
`determine_year_month` replicates the fallback pair over all rows. -/
theorem claim_C7_filename_fallback :
    Normalize.parse_period_from_name "202003-202005_foo.csv" =
      (some 2020, some 3) ∧
    ∀ t : Table,
      Normalize.detect_date_columns t = ⟨none, none, none⟩ →
      Normalize.determine_year_month t (Normalize.detect_date_columns t)
          (some 2020) (some 3) =
        (List.replicate (Normalize.nrows t) (some 2020),
          List.replicate (Normalize.nrows t) (some 3), []) := by
  refine ⟨by decide, ?_⟩
  intro t h
  rw [h]
  rfl

/-- Witness for C7: a table with a single unclassifiable numeric column and
the filename `202003-202005_foo.csv` assigns year 2020, month 3 to each row. -/
theorem claim_C7_witness :
    Normalize.determine_year_month [("value", [some "10", some "20"])]
        (Normalize.detect_date_columns [("value", [some "10", some "20"])])
        (some 2020) (some 3) =
      ([some 2020, some 2020], [some 3, some 3], []) :=
  claim_C7_filename_fallback.2 [("value", [some "10", some "20"])] (by decide)

namespace Summarize

theorem extract_year_months_shape (t : Table) :
    ∀ v ∈ extract_year_months t,
      ∃ y m : Nat, v = y * 100 + m ∧ 2000 ≤ y ∧ y ≤ 2030 ∧ 1 ≤ m ∧ m ≤ 12 := by
  intro v hv
  unfold extract_year_months at hv
  rcases List.mem_append.mp hv with h | h
  · by_cases hcols : "년도" ∈ colNames t ∧ "월" ∈ colNames t
    · simp only [if_pos hcols, List.mem_filterMap] at h
      obtain ⟨p, _, hp⟩ := h
      rcases p with ⟨py, pm⟩
      rcases py with _ | y
      · simp at hp
      · rcases pm with _ | m
        · simp at hp
        · simp only [Option.some_bind] at hp
          split at hp
          · rename_i hrange
            have hv := Option.some.inj hp
            exact ⟨y.toNat, m.toNat, by omega, by omega, by omega, by omega, by omega⟩
          · exact absurd hp (by simp)
    · simp [if_neg hcols] at h
  · simp only [List.mem_flatMap, List.mem_filterMap] at h
    obtain ⟨col, _, s, _, p, _, hp⟩ := h
    split at hp
    · rename_i hrange
      simp only [Option.some.injEq] at hp
      exact ⟨p.1, p.2, hp.symm, by omega, by omega, by omega, by omega⟩
    · exact absurd hp (by simp)

set_option maxRecDepth 40000 in
theorem mem_BASE_MONTHS_of_bounds (v : Nat) (h1 : 202001 ≤ v) (h2 : v ≤ 202509)
    (h3 : 1 ≤ v % 100) (h4 : v % 100 ≤ 12) : v ∈ BASE_MONTHS := by
  have key : ∀ w ∈ List.range' 202001 509,
      1 ≤ w % 100 → w % 100 ≤ 12 → w ∈ BASE_MONTHS := by decide
  exact key v (List.mem_range'_1.mpr ⟨h1, by omega⟩) h3 h4

theorem BASE_MONTHS_length : BASE_MONTHS.length = 69 := by decide

end Summarize

/-- C10: on both the success path and the read-error path, the counts of
present and missing months of a `summarize_file` record always sum to the 69
months of the fixed reference interval, because the missing set is the
reference set minus the in-interval observations. -/
theorem claim_C10_present_missing_partition (name folder : String) (f : EncFile) :
    (Summarize.summarize_file name folder f).present_count +
      (Summarize.summarize_file name folder f).missing_count = 69 := by
  unfold Summarize.summarize_file
  have herr : ∀ msg, (Summarize.errorSummary name folder msg).present_count +
      (Summarize.errorSummary name folder msg).missing_count = 69 := by
    intro msg
    simp [Summarize.errorSummary, Summarize.BASE_MONTHS_length]
  split
  · exact herr _
  · rename_i enc _
    split
    · exact herr _
    · rename_i t _
      unfold Summarize.summarizeTable
      simp only []
      set ym := Summarize.extract_year_months t with hym
      set P := (ym.filter fun v =>
        decide (Summarize.BASE_START ≤ v ∧ v ≤ Summarize.BASE_END)).dedup with hP
      set present := List.insertionSort (· ≤ ·) P with hpresent
      set missing := List.insertionSort (· ≤ ·)
        (Summarize.BASE_MONTHS.filter fun v => decide (v ∉ present)) with hmissing
      have hPnodup : P.Nodup := List.nodup_dedup _
      have hmemP : ∀ v, v ∈ present ↔ v ∈ P := fun v => List.mem_insertionSort _
      have hBnodup : Summarize.BASE_MONTHS.Nodup := List.nodup_dedup _
      have hPsub : ∀ v ∈ P, v ∈ Summarize.BASE_MONTHS := by
        intro v hv
        rw [hP] at hv
        have hv' := List.mem_dedup.mp hv
        have hvf := List.mem_filter.mp hv'
        have hrange := of_decide_eq_true hvf.2
        obtain ⟨y, m, hvym, _, _, hm1, hm2⟩ :=
          Summarize.extract_year_months_shape t v hvf.1
        refine Summarize.mem_BASE_MONTHS_of_bounds v ?_ ?_ ?_ ?_
        · exact hrange.1
        · exact hrange.2
        · omega
        · omega
      have hPlen : present.length = P.length := List.length_insertionSort _ _
      have hmlen : missing.length =
          (Summarize.BASE_MONTHS.filter fun v => decide (v ∉ present)).length :=
        List.length_insertionSort _ _
      have hfin : (Summarize.BASE_MONTHS.filter fun v => decide (v ∉ present)).toFinset =
          Summarize.BASE_MONTHS.toFinset \ P.toFinset := by
        ext x
        simp only [List.mem_toFinset, List.mem_filter, Finset.mem_sdiff,
          decide_not, Bool.not_eq_eq_eq_not, Bool.not_true, decide_eq_false_iff_not]
        constructor
        · intro ⟨hx1, hx2⟩
          exact ⟨hx1, fun hx3 => hx2 ((hmemP x).mpr hx3)⟩
        · intro ⟨hx1, hx2⟩
          exact ⟨hx1, fun hx3 => hx2 ((hmemP x).mp hx3)⟩
      have hsubfin : P.toFinset ⊆ Summarize.BASE_MONTHS.toFinset := by
        intro x hx
        exact List.mem_toFinset.mpr (hPsub x (List.mem_toFinset.mp hx))
      have hcard : (Summarize.BASE_MONTHS.filter fun v => decide (v ∉ present)).length =
          Summarize.BASE_MONTHS.length - P.length := by
        have hnodupf : (Summarize.BASE_MONTHS.filter
            fun v => decide (v ∉ present)).Nodup := hBnodup.filter _
        calc (Summarize.BASE_MONTHS.filter fun v => decide (v ∉ present)).length
            = (Summarize.BASE_MONTHS.filter
                fun v => decide (v ∉ present)).toFinset.card :=
              (List.toFinset_card_of_nodup hnodupf).symm
          _ = (Summarize.BASE_MONTHS.toFinset \ P.toFinset).card := by rw [hfin]
          _ = Summarize.BASE_MONTHS.toFinset.card - P.toFinset.card :=
              Finset.card_sdiff hsubfin
          _ = Summarize.BASE_MONTHS.length - P.length := by
              rw [List.toFinset_card_of_nodup hBnodup,
                List.toFinset_card_of_nodup hPnodup]
      have hle : P.length ≤ Summarize.BASE_MONTHS.length := by
        have := Finset.card_le_card hsubfin
        rwa [List.toFinset_card_of_nodup hBnodup,
          List.toFinset_card_of_nodup hPnodup] at this
      have hB69 : Summarize.BASE_MONTHS.length = 69 := Summarize.BASE_MONTHS_length
      simp only [hPlen, hmlen, hcard]
      omega

namespace Normalize

theorem nameStage_year_some (cols : List Column) : ∀ (info : DateColumns) (v : String),
    info.year_col = some v → (nameStage cols info).year_col = some v := by
  induction cols with
  | nil => intro info v h; exact h
  | cons col rest ih =>
    intro info v h
    rcases col with ⟨name, cells⟩
    rw [nameStage]
    have hy : ¬ (info.year_col = none ∧
        yearNameMatch (normalize_column_name name) = true ∧
        is_year_series cells = true) := by
      rintro ⟨h0, -⟩
      rw [h] at h0
      exact Option.noConfusion h0
    rw [if_neg hy]
    split
    · exact ih _ v h
    · exact ih _ v h

theorem nameStage_pre (pre : List Column) : ∀ (rest : List Column) (info : DateColumns),
    info.year_col = none →
    (∀ c ∈ pre, ¬ (yearNameMatch (normalize_column_name c.1) = true ∧
        is_year_series c.2 = true)) →
    ∃ info', nameStage (pre ++ rest) info = nameStage rest info' ∧
      info'.year_col = none := by
  induction pre with
  | nil => intro rest info h _; exact ⟨info, rfl, h⟩
  | cons col pre ih =>
    intro rest info h hpre
    rcases col with ⟨name, cells⟩
    rw [List.cons_append, nameStage]
    have hy : ¬ (info.year_col = none ∧
        yearNameMatch (normalize_column_name name) = true ∧
        is_year_series cells = true) := by
      rintro ⟨-, h1, h2⟩
      exact hpre (name, cells) (by simp) ⟨h1, h2⟩
    rw [if_neg hy]
    split
    · exact ih rest _ h fun c hc => hpre c (by simp [hc])
    · exact ih rest _ h fun c hc => hpre c (by simp [hc])

theorem detect_year_col_eq (t : Table) :
    (detect_date_columns t).year_col =
      (nameStage t ⟨none, none, none⟩).year_col := by
  unfold detect_date_columns
  dsimp only
  split <;> rfl

theorem is_year_series_of_int_cells (cells : List Cell) (hne : cells ≠ [])
    (hcells : ∀ x ∈ cells, ∃ n : Nat,
      x = some (⟨natToChars n⟩ : String) ∧ 1900 ≤ n ∧ n ≤ 2100) :
    is_year_series cells = true := by
  have hdig : ∀ d ∈ seriesDigits cells, inIntRange 1900 2100 d = true := by
    intro d hd
    unfold seriesDigits at hd
    rw [List.mem_map] at hd
    obtain ⟨s, hs, hds⟩ := hd
    rw [List.mem_filterMap] at hs
    obtain ⟨x, hx, hxs⟩ := hs
    obtain ⟨n, hxn, hn1, hn2⟩ := hcells x hx
    rw [hxn] at hxs
    have hsn : s = (⟨natToChars n⟩ : String) := by
      simpa using hxs.symm
    subst hsn
    subst hds
    rw [stripNonDigits_digit_chars _ (natToChars_spec n).2.1]
    unfold inIntRange
    rw [toNumeric?_natToChars]
    simp only [decide_eq_true_eq]
    omega
  have hlen : seriesDigits cells ≠ [] := by
    cases cells with
    | nil => exact absurd rfl hne
    | cons x rest =>
      obtain ⟨n, hxn, -, -⟩ := hcells x (by simp)
      subst hxn
      simp [seriesDigits]
  unfold is_year_series
  rw [if_neg hlen]
  have : (seriesDigits cells).countP (inIntRange 1900 2100) =
      (seriesDigits cells).length := List.countP_eq_length.mpr hdig
  simp only [this, ge_iff_le, decide_eq_true_eq]
  omega

end Normalize

/-- Counterexample for C4: a table whose first column `년도` also passes the
strict year test and precedes the column named exactly `year`; the classifier
assigns YEAR to `년도`, not to `year`, even though `year` holds only integers
in 1900–2100.  Other columns are therefore very much inspected first. -/
theorem claim_C4_counterexample :
    Normalize.detect_date_columns [("년도", [some "2020"]), ("year", [some "2021"])] =
      ⟨some "년도", none, none⟩ ∧
    ("년도" : String) ≠ "year" ∧
    (∀ x ∈ [some ("2021" : String)], ∃ n : Nat,
      x = some (⟨natToChars n⟩ : String) ∧ 1900 ≤ n ∧ n ≤ 2100) := by
  refine ⟨by decide, by decide, ?_⟩
  intro x hx
  refine ⟨2021, ?_, by omega, by omega⟩
  simp at hx
  rw [hx]
  rfl

/-- C4 as amended: the strict year stage assigns the first column passing
both the year name test and the 80% value test, so a column named exactly
`year` holding only integers in 1900–2100 is assigned as YEAR provided no
earlier column passes that same test; acceptance of a name-matched column is
exactly the 80% digit-stripped range condition. -/
theorem claim_C4_amended :
    (∀ (pre post : List Column) (cells : List Cell),
      (∀ c ∈ pre, ¬ (Normalize.yearNameMatch (Normalize.normalize_column_name c.1) = true ∧
          Normalize.is_year_series c.2 = true)) →
      cells ≠ [] →
      (∀ x ∈ cells, ∃ n : Nat,
        x = some (⟨natToChars n⟩ : String) ∧ 1900 ≤ n ∧ n ≤ 2100) →
      (Normalize.detect_date_columns (pre ++ ("year", cells) :: post)).year_col =
        some "year") ∧
    (∀ cells : List Cell, Normalize.is_year_series cells = true ↔
      (Normalize.seriesDigits cells ≠ [] ∧
        5 * (Normalize.seriesDigits cells).countP (Normalize.inIntRange 1900 2100) ≥
          4 * (Normalize.seriesDigits cells).length)) ∧
    (∀ cells : List Cell, Normalize.is_month_series cells = true ↔
      (Normalize.seriesDigits cells ≠ [] ∧
        5 * (Normalize.seriesDigits cells).countP (Normalize.inIntRange 1 12) ≥
          4 * (Normalize.seriesDigits cells).length)) := by
  refine ⟨?_, ?_, ?_⟩
  · intro pre post cells hpre hne hcells
    rw [Normalize.detect_year_col_eq]
    have hyser := Normalize.is_year_series_of_int_cells cells hne hcells
    obtain ⟨info', heq, hnone⟩ :=
      Normalize.nameStage_pre pre (("year", cells) :: post) ⟨none, none, none⟩ rfl hpre
    rw [heq, Normalize.nameStage]
    have hcond : info'.year_col = none ∧
        Normalize.yearNameMatch (Normalize.normalize_column_name "year") = true ∧
        Normalize.is_year_series cells = true := ⟨hnone, by decide, hyser⟩
    rw [if_pos hcond]
    exact Normalize.nameStage_year_some post _ "year" rfl
  · intro cells
    unfold Normalize.is_year_series
    by_cases h : Normalize.seriesDigits cells = []
    · simp [h]
    · rw [if_neg h]
      simp [h]
  · intro cells
    unfold Normalize.is_month_series
    by_cases h : Normalize.seriesDigits cells = []
    · simp [h]
    · rw [if_neg h]
      simp [h]

/-- Witness for C4: with no earlier keyword column, the `year` column of a
two-column table is assigned as YEAR. -/
theorem claim_C4_witness :
    (Normalize.detect_date_columns
      ([] ++ ("year", [some "2020"]) :: [("v", [some "9"])])).year_col = some "year" :=
  claim_C4_amended.1 [] [("v", [some "9"])] [some "2020"] (by simp) (by simp)
    (by
      intro x hx
      refine ⟨2020, ?_, by omega, by omega⟩
      simp at hx
      rw [hx]
      rfl)

namespace Normalize

theorem combinedScan_eq_find? (cols : List Column) :
    combinedScan cols = (cols.find? combinedPred).map (·.1) := by
  induction cols with
  | nil => rfl
  | cons col rest ih =>
    rw [combinedScan, List.find?]
    by_cases h : combinedPred col
    · rw [if_pos h, h]
      rfl
    · have hf : combinedPred col = false := by simpa using h
      rw [if_neg h, hf]
      exact ih

theorem detect_combined_col_eq (t : Table)
    (h : (nameStage t ⟨none, none, none⟩).year_col = none ∨
      (nameStage t ⟨none, none, none⟩).month_col = none) :
    (detect_date_columns t).combined_col = combinedScan t := by
  unfold detect_date_columns
  dsimp only
  rw [if_pos h]

end Normalize

/-- Counterexample for C5: a single date-hinted column with ten non-null
cells — four valid `YYYYMM` values, two six-digit values with month 13, four
one-digit values.  Per the claim (internal validity measured among the six
qualifying cells: 4/6 ≥ 60%) the column is selected as COMBINED_DATE, but
the source measures the month-validity ratio over *all* ten cells (4/10 <
60%) and selects nothing. -/
theorem claim_C5_counterexample :
    Normalize.detect_date_columns
        [("date", [some "202001", some "202001", some "202001", some "202001",
          some "202013", some "202013", some "1", some "1", some "1", some "1"])] =
      ⟨none, none, none⟩ ∧
    Normalize.specCombinedSelect
        [("date", [some "202001", some "202001", some "202001", some "202001",
          some "202013", some "202013", some "1", some "1", some "1", some "1"])] [] =
      some "date" := by
  exact ⟨by decide, by decide⟩

/-- C5 as amended: when the strict name stage leaves year or month
unassigned, the combined-date stage selects the first column of the *whole*
table (in column order, including any column the name stage already
assigned) whose name carries a date hint, whose non-null cells are at least
60% of digit length 6–8, and whose non-null cells — all of them, not only
the qualifying ones — are at least 60% month-valid on the six-digit prefix;
with no such column it selects nothing, and when both slots were assigned
the stage does not run. -/
theorem claim_C5_amended (t : Table) :
    ((Normalize.nameStage t ⟨none, none, none⟩).year_col = none ∨
      (Normalize.nameStage t ⟨none, none, none⟩).month_col = none) →
    (Normalize.detect_date_columns t).combined_col =
      (t.find? Normalize.combinedPred).map (·.1) := by
  intro h
  rw [Normalize.detect_combined_col_eq t h]
  exact Normalize.combinedScan_eq_find? t

/-- Witness for C5: a lone hinted column of valid `YYYYMM` cells is selected
by the combined stage, matching the first-passing-column characterization. -/
theorem claim_C5_witness :
    (Normalize.detect_date_columns [("날짜", [some "202001"])]).combined_col =
      ([("날짜", [some ("202001" : String)])].find? Normalize.combinedPred).map (·.1) :=
  claim_C5_amended [("날짜", [some "202001"])] (by decide)

/-- Counterexample for C6: a file decodable under `utf-8-sig`, `utf-8` and
`latin1`, with a Hangul header only under the UTF-8 candidates.  The detector
returns `"utf-8-sig"` — the first UTF-8-family candidate, which always ties
the `utf-8` score and precedes it — never the candidate named `"utf-8"`.
Additionally the score counts every ASCII code point (the control character
`\x01` scores 1), not only printable ASCII as the claim states. -/
theorem claim_C6_counterexample :
    Normalize.detect_encoding (fun e =>
        if e = "utf-8-sig" ∨ e = "utf-8" then some [("가", [])]
        else if e = "latin1" then some [("a", [])] else none) =
      some "utf-8-sig" ∧
    some "utf-8-sig" ≠ some "utf-8" ∧
    Normalize.headerScore "\x01" = 1 ∧
    Normalize.printableAsciiCount "\x01" = 0 := by
  refine ⟨by decide, by decide, by decide, by decide⟩

/-- C6 as amended: for a file whose `utf-8` candidate succeeds and whose
legacy candidates (`cp949`, `euc-kr`, `latin1`), whenever they succeed, score
strictly below the UTF-8 header — as happens when the CJK content renders
only under UTF-8, since Hangul code points score 2 each and the score counts
all ASCII code points — best-score detection returns a UTF-8-family
candidate: `utf-8-sig` or `utf-8`, never the legacy one. -/
theorem claim_C6_amended (f : EncFile) (tu : Table)
    (hu : f "utf-8" = some tu)
    (hleg : ∀ e ∈ ["cp949", "euc-kr", "latin1"], ∀ te : Table, f e = some te →
      Normalize.headerScore (Normalize.headerOf te) <
        Normalize.headerScore (Normalize.headerOf tu)) :
    Normalize.detect_encoding f = some "utf-8-sig" ∨
      Normalize.detect_encoding f = some "utf-8" := by
  have hkeep : ∀ (l : List String) (best : String × Nat),
      (∀ e ∈ l, ∀ te : Table, f e = some te →
        Normalize.headerScore (Normalize.headerOf te) ≤ best.2) →
      l.foldl (Normalize.detectStep f) (some best) = some best := by
    intro l
    induction l with
    | nil => intro best _; rfl
    | cons e rest ih =>
      intro best hl
      rw [List.foldl_cons]
      have hstep : Normalize.detectStep f (some best) e = some best := by
        unfold Normalize.detectStep
        cases he : f e with
        | none => rfl
        | some te =>
          have := hl e (by simp) te he
          simp only []
          rw [if_neg (by omega)]
      rw [hstep]
      exact ih best fun e' he' te hte => hl e' (by simp [he']) te hte
  unfold Normalize.detect_encoding ENCODINGS
  rw [List.foldl_cons, List.foldl_cons]
  set su := Normalize.headerScore (Normalize.headerOf tu) with hsu
  cases h0 : f "utf-8-sig" with
  | none =>
    have e1 : Normalize.detectStep f none "utf-8-sig" = none := by
      unfold Normalize.detectStep
      rw [h0]
    have e2 : Normalize.detectStep f none "utf-8" = some ("utf-8", su) := by
      unfold Normalize.detectStep
      rw [hu]
    rw [e1, e2, hkeep _ ("utf-8", su)
      (fun e he te hte => le_of_lt (hleg e he te hte))]
    right; rfl
  | some t0 =>
    have e1 : Normalize.detectStep f none "utf-8-sig" =
        some ("utf-8-sig", Normalize.headerScore (Normalize.headerOf t0)) := by
      unfold Normalize.detectStep
      rw [h0]
    set s0 := Normalize.headerScore (Normalize.headerOf t0) with hs0
    by_cases hcmp : su > s0
    · have e2 : Normalize.detectStep f (some ("utf-8-sig", s0)) "utf-8" =
          some ("utf-8", su) := by
        unfold Normalize.detectStep
        rw [hu]
        simp only []
        rw [if_pos hcmp]
      rw [e1, e2, hkeep _ ("utf-8", su)
        (fun e he te hte => le_of_lt (hleg e he te hte))]
      right; rfl
    · have e2 : Normalize.detectStep f (some ("utf-8-sig", s0)) "utf-8" =
          some ("utf-8-sig", s0) := by
        unfold Normalize.detectStep
        rw [hu]
        simp only []
        rw [if_neg hcmp]
      rw [e1, e2, hkeep _ ("utf-8-sig", s0)
        (fun e he te hte => le_of_lt (lt_of_lt_of_le (hleg e he te hte) (by omega)))]
      left; rfl

/-- Witness for C6: the detector applied to the counterexample file returns
one of the two UTF-8-family candidates. -/
theorem claim_C6_witness :
    Normalize.detect_encoding (fun e =>
        if e = "utf-8-sig" ∨ e = "utf-8" then some [("가", [])]
        else if e = "latin1" then some [("a", [])] else none) =
        some "utf-8-sig" ∨
      Normalize.detect_encoding (fun e =>
        if e = "utf-8-sig" ∨ e = "utf-8" then some [("가", [])]
        else if e = "latin1" then some [("a", [])] else none) =
        some "utf-8" :=
  claim_C6_amended _ [("가", [])] (by decide)
    (by
      intro e he te hte
      fin_cases he
      · simp at hte
      · simp at hte
      · have hte' : some [(("a" : String), ([] : List Cell))] = some te := by
          simpa using hte
        have : te = [("a", [])] := (Option.some.inj hte').symm
        subst this
        decide)

namespace Normalize

theorem colNames_setCol (t : Table) (n : String) (cells : List Cell) :
    colNames (setCol t n cells) = colNames t ∨
      colNames (setCol t n cells) = colNames t ++ [n] := by
  unfold setCol
  split
  · left
    unfold colNames
    rw [List.map_map]
    refine List.map_congr_left ?_
    intro c _
    by_cases hc : c.1 = n
    · simp [hc]
    · simp [hc]
  · right
    unfold colNames
    rw [List.map_append]
    rfl

theorem foldl_relOrder_mem (step : List String → String → List String)
    (hstep : ∀ acc c, step acc c = acc ∨ step acc c = acc ++ [c]) :
    ∀ (rl acc : List String) (x : String),
      x ∈ rl.foldl step acc → x ∈ acc ∨ x ∈ rl := by
  intro rl
  induction rl with
  | nil => intro acc x hx; exact Or.inl hx
  | cons c rest ih =>
    intro acc x hx
    rw [List.foldl_cons] at hx
    rcases ih (step acc c) x hx with h | h
    · rcases hstep acc c with he | he
      · rw [he] at h
        exact Or.inl h
      · rw [he] at h
        rcases List.mem_append.mp h with h' | h'
        · exact Or.inl h'
        · right
          simp at h'
          simp [h']
    · right
      simp [h]

end Normalize

/-- Counterexample for C9: a table with columns `A`, `년도` (in that order)
where `년도` is the detected year source.  The rewritten table's columns are
`year`, `month`, `년도`, `A`: the contributing source column is moved ahead
of `A`, so the retained columns do not keep their original relative order. -/
theorem claim_C9_counterexample :
    colNames (Normalize.process_file_table
        [("A", [some "x"]), ("년도", [some "2020"])] none none).1 =
      ["year", "month", "년도", "A"] ∧
    (["year", "month", "년도", "A"] : List String) ≠
      ["year", "month"] ++ ["A", "년도"] := by
  exact ⟨by decide, by decide⟩

/-- C9 as amended: the rewritten table is always serialized as `utf-8-sig`,
and its columns are the leading `year`, `month` pair, then the contributing
date-source columns (in source order), then the remaining columns in their
original relative order; every original column is retained. -/
theorem claim_C9_amended (t : Table) (fy fm : Option Int) :
    (Normalize.process_file_table t fy fm).2 = "utf-8-sig" ∧
    ∃ rel rest : List String,
      colNames (Normalize.process_file_table t fy fm).1 =
        "year" :: "month" :: (rel ++ rest) ∧
      (∀ n ∈ rel, n ∈ (Normalize.determine_year_month t
        (Normalize.detect_date_columns t) fy fm).2.2) ∧
      rest.Sublist (colNames t) ∧
      (∀ n ∈ colNames t, n ∈ colNames (Normalize.process_file_table t fy fm).1) := by
  constructor
  · rfl
  · unfold Normalize.process_file_table
    dsimp only
    set info := Normalize.detect_date_columns t with hinfo
    set r := Normalize.determine_year_month t info fy fm with hr
    set base := Normalize.setCol (Normalize.setCol t "year"
      (r.1.map fun v => v.map intToString)) "month"
      (r.2.1.map fun v => v.map intToString) with hbase
    set relOrder := r.2.2.foldl (fun acc c =>
      if c = "year" ∨ c = "month" then acc
      else if c ∈ acc ∨ c ∉ colNames base then acc
      else acc ++ [c]) [] with hrel
    set order := ["year", "month"] ++ relOrder with horder
    set rest := (colNames base).filter (fun n => n ∉ order) with hrest
    have hnames : ∀ (l : List String),
        colNames (l.map fun n => (n, colCells base n)) = l := by
      intro l
      unfold colNames
      rw [List.map_map]
      show List.map (fun n => n) l = l
      exact List.map_id' l
    have hbnames : colNames base = colNames t ∨
        colNames base = colNames t ++ ["year"] ∨
        colNames base = colNames t ++ ["month"] ∨
        colNames base = colNames t ++ ["year"] ++ ["month"] := by
      rw [hbase]
      rcases Normalize.colNames_setCol t "year"
          (r.1.map fun v => v.map intToString) with h1 | h1 <;>
        rcases Normalize.colNames_setCol (Normalize.setCol t "year"
          (r.1.map fun v => v.map intToString)) "month"
          (r.2.1.map fun v => v.map intToString) with h2 | h2 <;>
        rw [h2, h1] <;> simp
  -- `rest` drops the appended year/month names, so it is a filter of the
  -- original names and keeps their relative order.
    have hyo : ("year" : String) ∈ order := by simp [horder]
    have hmo : ("month" : String) ∈ order := by simp [horder]
    have hrest' : rest = (colNames t).filter (fun n => n ∉ order) := by
      rw [hrest]
      rcases hbnames with h | h | h | h <;> rw [h] <;>
        simp [List.filter_append, hyo, hmo]
    refine ⟨relOrder, rest, ?_, ?_, ?_, ?_⟩
    · rw [hnames]
      rfl
    · intro n hn
      have := Normalize.foldl_relOrder_mem _ (by
        intro acc c
        split
        · exact Or.inl rfl
        · split
          · exact Or.inl rfl
          · exact Or.inr rfl) r.2.2 [] n hn
      rcases this with h | h
      · exact absurd h (by simp)
      · exact h
    · rw [hrest']
      exact List.filter_sublist _
    · intro n hn
      rw [hnames]
      show n ∈ order ++ rest
      by_cases ho : n ∈ order
      · exact List.mem_append_left _ ho
      · refine List.mem_append_right _ ?_
        rw [hrest]
        refine List.mem_filter.mpr ⟨?_, by simpa using ho⟩
        rcases hbnames with h | h | h | h <;> rw [h] <;> simp [hn]

/-- Counterexample for C1: in the normalization entry point an input file
that no candidate encoding can read raises, the error propagates out of the
batch loop, and the following (readable) file is never processed — the run
crashes the batch rather than recording a file-level error, while the same
readable file alone processes fine. -/
theorem claim_C1_counterexample :
    Normalize.normalize_main
        [("bad.csv", fun _ => none),
          ("good.csv", fun e =>
            if e = "utf-8" then some [("a", [some "1"])] else none)] =
      Except.error "Failed to detect encoding" ∧
    Normalize.normalize_main
        [("good.csv", fun e =>
          if e = "utf-8" then some [("a", [some "1"])] else none)] =
      Except.ok 1 := by
  exact ⟨rfl, rfl⟩

/-- C1 as amended: the *summarization* entry point handles an unreadable file
as the claim says — the failure becomes a file-level `read_error:` note, the
file still appears in the summary with zero present months and all 69
reference months missing, and the batch continues, producing one record per
input file; the normalization entry point, by contrast, propagates the error
and aborts its batch. -/
theorem claim_C1_amended :
    (∀ files : List (String × String × EncFile),
      (Summarize.summarizeBatch files).length = files.length) ∧
    (∀ (name folder : String) (f : EncFile),
      (∀ e ∈ ENCODINGS, f e = none) →
      (Summarize.summarize_file name folder f).present_count = 0 ∧
      (Summarize.summarize_file name folder f).missing_count = 69 ∧
      (Summarize.summarize_file name folder f).notes ≠ "") := by
  constructor
  · intro files
    exact List.length_map files _
  · intro name folder f h
    have hdet : Summarize.detect_encoding f = none := by
      unfold Summarize.detect_encoding
      rw [List.find?_eq_none]
      intro e he
      rw [h e he]
      simp
    unfold Summarize.summarize_file
    rw [hdet]
    refine ⟨rfl, ?_, by simp [Summarize.errorSummary]⟩
    show Summarize.BASE_MONTHS.length = 69
    exact Summarize.BASE_MONTHS_length

/-- Witness for C1: an entirely undecodable file still yields a summary
record with zero present months, 69 missing months and a nonempty note. -/
theorem claim_C1_witness :
    (Summarize.summarize_file "x.csv" "1" (fun _ => none)).present_count = 0 ∧
    (Summarize.summarize_file "x.csv" "1" (fun _ => none)).missing_count = 69 ∧
    (Summarize.summarize_file "x.csv" "1" (fun _ => none)).notes ≠ "" :=
  claim_C1_amended.2 "x.csv" "1" (fun _ => none) (fun _ _ => rfl)

theorem intToString_nonneg (i : Int) (h : 0 ≤ i) :
    intToString i = ⟨natToChars i.toNat⟩ := by
  unfold intToString
  rw [if_neg (by omega)]

theorem intToString_neg (i : Int) (h : i < 0) :
    intToString i = "-" ++ (⟨natToChars i.natAbs⟩ : String) := by
  unfold intToString
  rw [if_pos h]

theorem toNumeric?_intToString (i : Int) : toNumeric? (intToString i) = some i := by
  by_cases h : 0 ≤ i
  · rw [intToString_nonneg i h]
    rw [toNumeric?_digit_chars _ (natToChars_spec i.toNat).1 (natToChars_spec i.toNat).2.1]
    rw [(natToChars_spec i.toNat).2.2]
    simp [Int.toNat_of_nonneg h]
  · rw [intToString_neg i (by omega)]
    have hdata : ("-" ++ (⟨natToChars i.natAbs⟩ : String)).data =
        '-' :: natToChars i.natAbs := by
      rw [String.data_append]
      rfl
    unfold toNumeric?
    rw [hdata]
    simp only [List.head?_cons, List.tail_cons, if_pos rfl]
    rw [parseUnsigned?_digit_chars _ (natToChars_spec i.natAbs).1
      (natToChars_spec i.natAbs).2.1]
    rw [(natToChars_spec i.natAbs).2.2]
    simp only [if_true, Option.some_bind, Option.map_some']
    have habs : ((i.natAbs : Nat) : Int) = -i := by omega
    simp [habs]

theorem isIntString_intToString (i : Int) : isIntString (intToString i) = true := by
  by_cases h : 0 ≤ i
  · rw [intToString_nonneg i h]
    unfold isIntString
    obtain ⟨h1, h2, -⟩ := natToChars_spec i.toNat
    have hd : ((⟨natToChars i.toNat⟩ : String)).data = natToChars i.toNat := rfl
    rw [hd]
    have hne : ¬ ((natToChars i.toNat).head? = some '-') := by
      cases hnc : natToChars i.toNat with
      | nil => exact absurd hnc h1
      | cons c rest =>
        have hc : c.isDigit = true := by
          have := List.all_eq_true.mp h2
          rw [hnc] at this
          exact this c (by simp)
        simp only [List.head?_cons, Option.some.injEq]
        intro hcc
        exact isDigit_ne_dash hc hcc
    rw [if_neg hne]
    simp [h1, h2]
  · rw [intToString_neg i (by omega)]
    unfold isIntString
    have hdata : ("-" ++ (⟨natToChars i.natAbs⟩ : String)).data =
        '-' :: natToChars i.natAbs := by
      rw [String.data_append]
      rfl
    rw [hdata]
    obtain ⟨h1, h2, -⟩ := natToChars_spec i.natAbs
    simp [h1, h2]

theorem intToString_ne_empty (i : Int) : intToString i ≠ "" := by
  intro hcontra
  have : (intToString i).data = [] := by rw [hcontra]
  by_cases h : 0 ≤ i
  · rw [intToString_nonneg i h] at this
    exact absurd this (natToChars_spec i.toNat).1
  · rw [intToString_neg i (by omega)] at this
    rw [String.data_append] at this
    exact absurd this (by simp)

theorem renderIntCell_intToString (i : Int) :
    renderIntCell (intToString i) = intToString i := by
  unfold renderIntCell
  rw [toNumeric?_intToString]
  rfl

theorem renderColumn_int_strings (vs : List Int) :
    renderColumn (vs.map intToString) = vs.map fun v => some (intToString v) := by
  cases hvs : vs with
  | nil => rfl
  | cons v rest =>
    have hne : ∀ s ∈ (v :: rest).map intToString, ¬ s = "" := by
      intro s hs
      rw [List.mem_map] at hs
      obtain ⟨w, -, hw⟩ := hs
      rw [← hw]
      exact intToString_ne_empty w
    have hfilter : ((v :: rest).map intToString).filter (fun s => s ≠ "") =
        (v :: rest).map intToString := by
      refine List.filter_eq_self.mpr ?_
      intro s hs
      simpa using hne s hs
    unfold renderColumn
    rw [hfilter]
    rw [if_neg (by simp)]
    have hint : (((v :: rest).map intToString).all isIntString) = true := by
      rw [List.all_eq_true]
      intro s hs
      rw [List.mem_map] at hs
      obtain ⟨w, -, hw⟩ := hs
      rw [← hw]
      exact isIntString_intToString w
    have hnc : ¬ ((v :: rest).map intToString).contains "" = true := by
      intro hc
      have : ("" : String) ∈ (v :: rest).map intToString := by
        simpa using hc
      exact hne "" this rfl
    rw [if_pos ⟨hint, hnc⟩]
    rw [List.map_map]
    refine List.map_congr_left ?_
    intro w _
    show some (renderIntCell (intToString w)) = some (intToString w)
    rw [renderIntCell_intToString]

theorem all_isSome_exists_map_some {α : Type} (l : List (Option α))
    (h : l.all Option.isSome = true) : ∃ vs : List α, l = vs.map some := by
  induction l with
  | nil => exact ⟨[], rfl⟩
  | cons x rest ih =>
    rw [List.all_cons, Bool.and_eq_true] at h
    obtain ⟨vs, hvs⟩ := ih h.2
    cases x with
    | none => exact absurd h.1 (by simp)
    | some v => exact ⟨v :: vs, by rw [hvs]; rfl⟩

namespace Normalize

theorem ensure_int_series_round (vs : List Int) :
    ensure_int_series (vs.map fun v => some (intToString v)) = vs.map some := by
  unfold ensure_int_series
  rw [List.map_map]
  refine List.map_congr_left ?_
  intro w _
  show (some (intToString w)).bind toNumeric? = some w
  rw [Option.some_bind, toNumeric?_intToString]

theorem nameStage_both_some (cols : List Column) :
    ∀ (info : DateColumns), info.year_col.isSome = true →
      info.month_col.isSome = true → nameStage cols info = info := by
  induction cols with
  | nil => intro info _ _; rfl
  | cons col rest ih =>
    intro info hy hm
    rcases col with ⟨name, cells⟩
    rw [nameStage]
    rw [if_neg (by
      rintro ⟨h0, -⟩
      rw [h0] at hy
      exact absurd hy (by simp))]
    rw [if_neg (by
      rintro ⟨h0, -⟩
      rw [h0] at hm
      exact absurd hm (by simp))]
    exact ih info hy hm

theorem find?_map_setCol_same (t : Table) (n : String) (cells : List Cell) :
    List.find? (fun c => c.1 = n) (t.map fun c => if c.1 = n then (n, cells) else c) =
      if t.any (fun c => c.1 = n) then some (n, cells) else none := by
  induction t with
  | nil => rfl
  | cons c rest ih =>
    rw [List.map_cons, List.any_cons]
    by_cases hc : c.1 = n
    · rw [if_pos hc]
      rw [List.find?_cons_of_pos _ (by simp)]
      simp [hc]
    · rw [if_neg hc]
      rw [List.find?_cons_of_neg _ (by simpa using hc)]
      rw [ih, decide_eq_false hc, Bool.false_or]

theorem find?_map_setCol_other (t : Table) (n n' : String) (cells : List Cell)
    (hne : ¬ n' = n) :
    List.find? (fun c => c.1 = n') (t.map fun c => if c.1 = n then (n, cells) else c) =
      List.find? (fun c => c.1 = n') t := by
  induction t with
  | nil => rfl
  | cons c rest ih =>
    rw [List.map_cons]
    by_cases hc : c.1 = n
    · rw [if_pos hc]
      rw [List.find?_cons_of_neg _ (by simp; intro hcontra; exact hne hcontra.symm)]
      rw [List.find?_cons_of_neg _ (by
        simp only [decide_eq_true_eq]
        rw [hc]
        intro hcontra
        exact hne hcontra.symm)]
      exact ih
    · rw [if_neg hc]
      by_cases hp : c.1 = n'
      · rw [List.find?_cons_of_pos _ (by simpa using hp),
          List.find?_cons_of_pos _ (by simpa using hp)]
      · rw [List.find?_cons_of_neg _ (by simpa using hp),
          List.find?_cons_of_neg _ (by simpa using hp)]
        exact ih

theorem colCells_setCol_same (t : Table) (n : String) (cells : List Cell) :
    colCells (setCol t n cells) n = cells := by
  unfold setCol colCells
  by_cases h : t.any (fun c => c.1 = n)
  · rw [if_pos h, find?_map_setCol_same, if_pos h]
    rfl
  · rw [if_neg h, List.find?_append]
    have hnone : List.find? (fun c => c.1 = n) t = none := by
      rw [List.find?_eq_none]
      intro c hc
      simp only [decide_eq_true_eq]
      intro hcc
      exact h (List.any_eq_true.mpr ⟨c, hc, by simp [hcc]⟩)
    rw [hnone]
    simp

theorem colCells_setCol_other (t : Table) (n n' : String) (cells : List Cell)
    (hne : ¬ n' = n) : colCells (setCol t n cells) n' = colCells t n' := by
  unfold setCol colCells
  by_cases h : t.any (fun c => c.1 = n)
  · rw [if_pos h, find?_map_setCol_other t n n' cells hne]
  · rw [if_neg h, List.find?_append]
    have hlast : List.find? (fun c => c.1 = n') [(n, cells)] = none := by
      rw [List.find?_eq_none]
      intro c hc
      simp only [List.mem_singleton] at hc
      subst hc
      simp only [decide_eq_true_eq]
      intro hcontra
      exact hne hcontra.symm
    rw [hlast]
    simp

theorem process_file_table_structure (t : Table) (fy fm : Option Int) :
    ∃ rest : Table,
      (process_file_table t fy fm).1 =
        ("year", (determine_year_month t (detect_date_columns t) fy fm).1.map
            fun v => v.map intToString) ::
          ("month", (determine_year_month t (detect_date_columns t) fy fm).2.1.map
            fun v => v.map intToString) :: rest := by
  unfold process_file_table
  dsimp only
  set r := determine_year_month t (detect_date_columns t) fy fm with hr
  set yc := r.1.map fun v => v.map intToString with hyc
  set mc := r.2.1.map fun v => v.map intToString with hmc
  set base := setCol (setCol t "year" yc) "month" mc with hbase
  have hy : colCells base "year" = yc := by
    rw [hbase, colCells_setCol_other _ _ _ _ (by decide), colCells_setCol_same]
  have hm : colCells base "month" = mc := by
    rw [hbase, colCells_setCol_same]
  refine ⟨(process_file_table t fy fm).1.tail.tail, ?_⟩
  conv_rhs => rw [← hy, ← hm]
  rfl

theorem detect_on_normalized (yc mc : List Cell) (rest2 : Table)
    (hys : is_year_series yc = true) (hms : is_month_series mc = true) :
    detect_date_columns (("year", yc) :: ("month", mc) :: rest2) =
      ⟨some "year", some "month", none⟩ := by
  have h1 : nameStage (("year", yc) :: ("month", mc) :: rest2) ⟨none, none, none⟩ =
      ⟨some "year", some "month", none⟩ := by
    rw [nameStage]
    rw [if_pos ⟨rfl, by decide, hys⟩]
    rw [nameStage]
    rw [if_neg (by rintro ⟨h0, -⟩; exact Option.noConfusion h0)]
    rw [if_pos ⟨rfl, by decide, hms⟩]
    exact nameStage_both_some rest2 _ rfl rfl
  unfold detect_date_columns
  dsimp only
  rw [h1]
  rw [if_neg (by rintro (h | h) <;> exact Option.noConfusion h)]

theorem determine_on_normalized (yc mc : List Cell) (rest2 : Table)
    (fy fm : Option Int) :
    determine_year_month (("year", yc) :: ("month", mc) :: rest2)
        ⟨some "year", some "month", none⟩ fy fm =
      (ensure_int_series yc, ensure_int_series mc, ["year", "month"]) := by
  have hcy : colCells (("year", yc) :: ("month", mc) :: rest2) "year" = yc := by
    unfold colCells
    rw [List.find?_cons_of_pos _ (by simp)]
    rfl
  have hcm : colCells (("year", yc) :: ("month", mc) :: rest2) "month" = mc := by
    unfold colCells
    rw [List.find?_cons_of_neg _ (by simp), List.find?_cons_of_pos _ (by simp)]
    rfl
  unfold determine_year_month
  dsimp only
  simp only [Option.map_some', Option.getD_some, Option.toList_some]
  rw [hcy, hcm]
  rfl

end Normalize

theorem rawCol_csvWrite_head (n : String) (cells : List Cell) (rest : Table) :
    rawCol (csvWrite ((n, cells) :: rest)) n = cells.map fun c => c.getD "" := by
  unfold csvWrite rawCol
  rw [List.map_cons, List.find?_cons_of_pos _ (by simp)]
  rfl

theorem rawCol_csvWrite_second (n n' : String) (cells cells' : List Cell)
    (rest : Table) (hne : ¬ n = n') :
    rawCol (csvWrite ((n', cells') :: (n, cells) :: rest)) n =
      cells.map fun c => c.getD "" := by
  unfold csvWrite rawCol
  rw [List.map_cons, List.map_cons,
    List.find?_cons_of_neg _ (by simp; intro hcontra; exact hne hcontra.symm),
    List.find?_cons_of_pos _ (by simp)]
  rfl

theorem csvRead_csvWrite_cons (n : String) (cells : List Cell) (rest : Table) :
    csvRead (csvWrite ((n, cells) :: rest)) =
      (n, renderColumn (cells.map fun c => c.getD "")) :: csvRead (csvWrite rest) := by
  rfl

/-- C2 as amended: a second normalization pass reproduces byte-identical
`year`/`month` values for every file whose first pass produced fully
populated year and month series passing their 80% range checks — the second
pass then recognizes its own leading output columns by name and re-derives
the same values.  (The counterexample shows idempotence fails in general
when a missing entry is present.) -/
theorem claim_C2_amended (t : Table) (fy fm : Option Int)
    (hY : (Normalize.determine_year_month t
      (Normalize.detect_date_columns t) fy fm).1.all Option.isSome = true)
    (hM : (Normalize.determine_year_month t
      (Normalize.detect_date_columns t) fy fm).2.1.all Option.isSome = true)
    (hYs : Normalize.is_year_series
      ((Normalize.determine_year_month t (Normalize.detect_date_columns t) fy fm).1.map
        fun v => v.map intToString) = true)
    (hMs : Normalize.is_month_series
      ((Normalize.determine_year_month t (Normalize.detect_date_columns t) fy fm).2.1.map
        fun v => v.map intToString) = true) :
    rawCol (csvWrite (Normalize.process_file_table
        (csvRead (csvWrite (Normalize.process_file_table t fy fm).1)) fy fm).1) "year" =
      rawCol (csvWrite (Normalize.process_file_table t fy fm).1) "year" ∧
    rawCol (csvWrite (Normalize.process_file_table
        (csvRead (csvWrite (Normalize.process_file_table t fy fm).1)) fy fm).1) "month" =
      rawCol (csvWrite (Normalize.process_file_table t fy fm).1) "month" := by
  set r := Normalize.determine_year_month t (Normalize.detect_date_columns t) fy fm
    with hr
  obtain ⟨rest1, hsplit⟩ := Normalize.process_file_table_structure t fy fm
  obtain ⟨vs, hvs⟩ := all_isSome_exists_map_some r.1 hY
  obtain ⟨ws, hws⟩ := all_isSome_exists_map_some r.2.1 hM
  set yc := r.1.map (fun v => v.map intToString) with hyc
  set mc := r.2.1.map (fun v => v.map intToString) with hmc
  have hycv : yc = vs.map fun v => some (intToString v) := by
    rw [hyc, hvs, List.map_map]
    rfl
  have hmcv : mc = ws.map fun v => some (intToString v) := by
    rw [hmc, hws, List.map_map]
    rfl
  have hy2 : renderColumn (yc.map fun c => c.getD "") = yc := by
    rw [hycv, List.map_map]
    have hcomp : ((fun c : Cell => c.getD "") ∘ fun v : Int => some (intToString v)) =
        intToString := rfl
    rw [hcomp, renderColumn_int_strings]
  have hm2 : renderColumn (mc.map fun c => c.getD "") = mc := by
    rw [hmcv, List.map_map]
    have hcomp : ((fun c : Cell => c.getD "") ∘ fun v : Int => some (intToString v)) =
        intToString := rfl
    rw [hcomp, renderColumn_int_strings]
  have ht2 : csvRead (csvWrite (Normalize.process_file_table t fy fm).1) =
      ("year", yc) :: ("month", mc) :: csvRead (csvWrite rest1) := by
    rw [hsplit, csvRead_csvWrite_cons, csvRead_csvWrite_cons, hy2, hm2]
  have hens_y : Normalize.ensure_int_series yc = r.1 := by
    rw [hycv, Normalize.ensure_int_series_round, ← hvs]
  have hens_m : Normalize.ensure_int_series mc = r.2.1 := by
    rw [hmcv, Normalize.ensure_int_series_round, ← hws]
  have hdet := Normalize.detect_on_normalized yc mc (csvRead (csvWrite rest1)) hYs hMs
  have hdetm := Normalize.determine_on_normalized yc mc (csvRead (csvWrite rest1)) fy fm
  obtain ⟨rest2, hsplit2⟩ := Normalize.process_file_table_structure
    (("year", yc) :: ("month", mc) :: csvRead (csvWrite rest1)) fy fm
  rw [hdet, hdetm] at hsplit2
  simp only [] at hsplit2
  rw [hens_y, hens_m, ← hyc, ← hmc] at hsplit2
  constructor
  · rw [ht2, hsplit2, rawCol_csvWrite_head, hsplit, rawCol_csvWrite_head]
  · rw [ht2, hsplit2, rawCol_csvWrite_second _ _ _ _ _ (by decide),
      hsplit, rawCol_csvWrite_second _ _ _ _ _ (by decide)]

/-- Counterexample for C2: a file whose first normalization pass writes the
canonical leading `year,month` header with month values `7,7,` (one missing)
re-normalizes to month values `,,`: the missing entry makes the written
`month` column re-read as floats (`"7"` → `"7.0"`, stripping to `70`), the
name stage rejects it, and the reordered columns let the `년도` column win
the combined-date stage ahead of the original `날짜` source, blanking every
month.  Normalization is not idempotent on the year/month values. -/
theorem claim_C2_counterexample :
    (normalizePass [("날짜", ["202007", "202007", "xx"]),
        ("년도", ["002001", "002001", "002001x"])] none none).map Prod.fst =
      ["year", "month", "년도", "날짜"] ∧
    rawCol (normalizePass [("날짜", ["202007", "202007", "xx"]),
        ("년도", ["002001", "002001", "002001x"])] none none) "month" =
      ["7", "7", ""] ∧
    rawCol (normalizePass (normalizePass [("날짜", ["202007", "202007", "xx"]),
        ("년도", ["002001", "002001", "002001x"])] none none) none none) "month" =
      ["", "", ""] ∧
    (["7", "7", ""] : List String) ≠ ["", "", ""] := by
  exact ⟨by decide, by decide, by decide, by decide⟩

/-- Witness for C2: a file with clean year and month columns (no missing
values, all in range) round-trips with byte-identical year/month values. -/
theorem claim_C2_witness :
    rawCol (csvWrite (Normalize.process_file_table
        (csvRead (csvWrite (Normalize.process_file_table
          [("년도", [some "2020", some "2021"]), ("월", [some "1", some "2"])]
          none none).1)) none none).1) "year" =
      rawCol (csvWrite (Normalize.process_file_table
        [("년도", [some "2020", some "2021"]), ("월", [some "1", some "2"])]
        none none).1) "year" ∧
    rawCol (csvWrite (Normalize.process_file_table
        (csvRead (csvWrite (Normalize.process_file_table
          [("년도", [some "2020", some "2021"]), ("월", [some "1", some "2"])]
          none none).1)) none none).1) "month" =
      rawCol (csvWrite (Normalize.process_file_table
        [("년도", [some "2020", some "2021"]), ("월", [some "1", some "2"])]
        none none).1) "month" :=
  claim_C2_amended
    [("년도", [some "2020", some "2021"]), ("월", [some "1", some "2"])]
    none none (by decide) (by decide) (by decide) (by decide)

end Dacon
